import Mathlib

/-!
Verification development for the offline map-tile export pipeline of
`src/components/maps/MapsExporterApp.tsx`.

The TypeScript source is shallowly embedded below.  Conventions:

* JavaScript numbers used for geographic coordinates are modelled as `ℚ`.
  The Web-Mercator latitude transform (`Math.log (Math.tan ...)`) is
  transcendental; it is abstracted as an arbitrary function `lat2y : ℚ → ℚ`
  (one per zoom level), which suffices because every claim about the
  planner/estimator is insensitive to its concrete values.  The longitude
  transform is rational and is embedded exactly.
* JavaScript strings are modelled as `String` / `List Char`;
  `String.prototype.replace` with a string pattern (first occurrence only)
  is embedded as `replaceFirst`, `String(n)` as `natToChars`/`intToChars`.
* The fetch loop of `exportZip` is embedded as explicit state passing over a
  `Session` record; the network, the `packNowRef` flag and the `abortRef`
  controller are an environment `Env` consulted at the same program points
  at which the source reads them.
-/

namespace AnonMaps

/-- Decimal digit character, models the characters produced by JS `String(n)`. -/
def digitChar (n : ℕ) : Char := Char.ofNat (48 + n)

/-- Fuel-indexed decimal printer for naturals (structural recursion so that the
kernel can evaluate it). -/
def natToCharsAux : ℕ → ℕ → List Char
  | 0, _ => []
  | fuel+1, n => if n < 10 then [digitChar n] else natToCharsAux fuel (n / 10) ++ [digitChar (n % 10)]

/-- Decimal representation of a natural number, models JS `String(n)` for `n ≥ 0`. -/
def natToChars (n : ℕ) : List Char := natToCharsAux (n + 1) n

/-- Decimal representation of an integer, models JS `String(i)`. -/
def intToChars (i : ℤ) : List Char :=
  if i < 0 then '-' :: natToChars (-i).toNat else natToChars i.toNat

/-- The character left brace (used to reason about URL template placeholders). -/
def lbrace : Char := Char.ofNat 123

/-- Model of JS `String.prototype.replace(pat, rep)` with a plain-string
pattern: only the FIRST occurrence of `pat` is replaced. -/
def replaceFirst (pat rep : List Char) : List Char → List Char
  | [] => if pat.isPrefixOf [] then rep else []
  | c :: rest =>
    if pat.isPrefixOf (c :: rest) then rep ++ (c :: rest).drop pat.length
    else c :: replaceFirst pat rep rest

/-- Substring occurrence test, models JS `String.prototype.includes`. -/
def occursIn (pat : List Char) : List Char → Bool
  | [] => pat.isEmpty
  | c :: rest => pat.isPrefixOf (c :: rest) || occursIn pat rest

/-- JS `s.includes(pat)` on `String`. -/
def includesStr (s pat : String) : Bool := occursIn pat.toList s.toList

/-! ### Projection and planning (source lines 87-160 and 434-449) -/

/-- Source `clampLat` (and the identical local `clampLatLocal` of
`tilesForBbox`): latitude clamped to the Mercator limit ±85.05112878. -/
def clampLat (lat : ℚ) : ℚ := max (-85.05112878) (min 85.05112878 lat)

/-- Source `lon2x` inside `tilesForBbox` (and the unfloored part of
`lon2tileX`): `((lon + 180) / 360) * 2^z`. -/
def lon2x (z : ℕ) (lon : ℚ) : ℚ := ((lon + 180) / 360) * 2 ^ z

/-- Source `lon2tileX`. -/
def lon2tileX (lon : ℚ) (z : ℕ) : ℤ := ⌊lon2x z lon⌋

/-- Source `lat2tileY`, with the transcendental Mercator y-projection at the
given zoom abstracted as `lat2y`. -/
def lat2tileY (lat2y : ℚ → ℚ) (lat : ℚ) : ℤ := ⌊lat2y lat⌋

/-- Source `tilesForBbox` (the tile-count estimator, lines 112-144):
`y1`/`y2` are the projections of the clamped north/south edges, `x1`/`x2` of
the west/east edges; the result is
`max 0 (xmax - xmin + 1) * max 0 (ymax - ymin + 1)` after flooring. -/
def tilesForBbox (lat2y : ℚ → ℚ) (south west north east : ℚ) (z : ℕ) : ℤ :=
  let y1 := lat2y (clampLat north)
  let y2 := lat2y (clampLat south)
  let x1 := lon2x z west
  let x2 := lon2x z east
  let xmin := ⌊min x1 x2⌋
  let xmax := ⌊max x1 x2⌋
  let ymin := ⌊min y1 y2⌋
  let ymax := ⌊max y1 y2⌋
  max 0 (xmax - xmin + 1) * max 0 (ymax - ymin + 1)

/-- The inclusive tile range computed per zoom by `exportZip` (lines 435-442):
clamp the latitudes, then take min/max of the floored projections. -/
def tileRange (lat2y : ℚ → ℚ) (south west north east : ℚ) (z : ℕ) : ℤ × ℤ × ℤ × ℤ :=
  let nLat := clampLat north
  let sLat := clampLat south
  let xMin := min (lon2tileX west z) (lon2tileX east z)
  let xMax := max (lon2tileX west z) (lon2tileX east z)
  let yMin := min (lat2tileY lat2y nLat) (lat2tileY lat2y sLat)
  let yMax := max (lat2tileY lat2y nLat) (lat2tileY lat2y sLat)
  (xMin, xMax, yMin, yMax)

/-- Inclusive integer interval `[a, b]` as a list (empty when `b < a`). -/
def rangeInt (a b : ℤ) : List ℤ := (List.range (b + 1 - a).toNat).map (fun i => a + Int.ofNat i)

/-- The `(x, y)` pairs enumerated for one zoom by the nested loops of
`exportZip` (lines 444-448): `x` ascending outer, `y` ascending inner. -/
def planPairs (lat2y : ℚ → ℚ) (south west north east : ℚ) (z : ℕ) : List (ℤ × ℤ) :=
  let r := tileRange lat2y south west north east z
  (rangeInt r.1 r.2.1).flatMap (fun x => (rangeInt r.2.2.1 r.2.2.2).map (fun y => (x, y)))

/-- A tile job `{z, x, y}` as pushed by the planner. -/
abbrev Job := ℕ × ℤ × ℤ

/-- The full precomputed job list of `exportZip` (lines 434-449): zoom levels
in the given order, `(x, y)` pairs per zoom from the projected range. -/
def planJobs (lat2y : ℕ → ℚ → ℚ) (south west north east : ℚ) (zooms : List ℕ) : List Job :=
  zooms.flatMap (fun z => (planPairs (lat2y z) south west north east z).map (fun p => (z, p.1, p.2)))

/-! ### URL building and subdomain selection (source lines 73-85 and 457-462) -/

/-- List-level body of `buildTileUrl` (source lines 73-85): replace the first
occurrence of each of the placeholders, in the source's order
`{s}`, `{z}`, `{x}`, `{y}`. -/
def buildTileUrlL (template : List Char) (z : ℕ) (x y : ℤ) (s : List Char) : List Char :=
  replaceFirst "{y}".toList (intToChars y)
    (replaceFirst "{x}".toList (intToChars x)
      (replaceFirst "{z}".toList (natToChars z)
        (replaceFirst "{s}".toList s template)))

/-- Source `buildTileUrl(template, z, x, y, s?)`; an absent subdomain
(`s ?? ""`) substitutes the empty string. -/
def buildTileUrl (template : String) (z : ℕ) (x y : ℤ) (s : Option String) : String :=
  String.mk (buildTileUrlL template.toList z x y ((s.getD "").toList))

/-- The subdomain picked inside the job loop (line 461):
`subs[(job.x + job.y) % subs.length]`.  JS `%` is the truncating remainder
(sign of the dividend) and `subs[NaN]`/`subs[-1]` are `undefined`, modelled by
`Option.none`; in particular an empty `subs` yields `none` (the `% 0` index
is out of range, it does not throw). -/
def selectSub (subs : List String) (x y : ℤ) : Option String :=
  let r := Int.tmod (x + y) (subs.length : ℤ)
  if r < 0 then Option.none else subs.get? r.toNat

/-- The URL resolution performed per job in `exportZip` (lines 457-462).
(The `tileSubdomains ?? ...` fallback in line 459-460 is dead code: the
`tileSubdomains` value is always a — possibly empty — array, so `subs` is the
given list.) -/
def resolveUrl (template : String) (subs : List String) (z : ℕ) (x y : ℤ) : String :=
  buildTileUrl template z x y (selectSub subs x y)

/-! ### Tile providers and source selection (source lines 11-71 and 244-277) -/

inductive TileProviderId
  | none | carto_dark | osm | opentopo | carto | google | custom
deriving DecidableEq

/-- The `url` field of the `TILE_PROVIDERS` registry (lines 28-71); the
`none` provider has no registry entry and contributes the empty template
(lines 244-249). -/
def providerUrl : TileProviderId → String
  | .osm => "https://{s}.tile.openstreetmap.org/{z}/{x}/{y}.png"
  | .opentopo => "https://{s}.tile.opentopomap.org/{z}/{x}/{y}.png"
  | .carto_dark => "https://{s}.basemaps.cartocdn.com/dark_all/{z}/{x}/{y}{r}.png"
  | .carto => "https://{s}.basemaps.cartocdn.com/light_all/{z}/{x}/{y}.png"
  | .google => ""
  | .custom => ""
  | .none => ""

/-- The `subdomains` field of the registry; absent fields are `?? []`
(lines 258-265). -/
def providerSubdomains : TileProviderId → List String
  | .osm => ["a", "b", "c"]
  | .opentopo => ["a", "b", "c"]
  | .carto_dark => ["a", "b", "c", "d"]
  | .carto => ["a", "b", "c", "d"]
  | _ => []

/-- Source `tileTemplate` (lines 244-249). -/
def tileTemplate (pid : TileProviderId) (customTileUrl : String) : String :=
  match pid with
  | .custom => customTileUrl.trim
  | .none => ""
  | _ => providerUrl pid

/-- Source `tileSubdomains` (lines 258-265). -/
def tileSubdomains (pid : TileProviderId) (customTileUrl : String) : List String :=
  match pid with
  | .custom => if includesStr (tileTemplate pid customTileUrl) "{s}" then ["a", "b", "c"] else []
  | .none => []
  | _ => providerSubdomains pid

/-- Source `isValidCustomUrl` (lines 268-272). -/
def isValidCustomUrl (pid : TileProviderId) (customTileUrl : String) : Bool :=
  decide (pid = TileProviderId.custom) && includesStr customTileUrl "{z}"
    && includesStr customTileUrl "{x}" && includesStr customTileUrl "{y}"

/-- Source `isTileSourceSelected` (lines 274-277). -/
def isTileSourceSelected (pid : TileProviderId) (customTileUrl : String)
    (customUrlApplied : Bool) : Bool :=
  match pid with
  | .custom => isValidCustomUrl pid customTileUrl && customUrlApplied
  | _ => decide (0 < (tileTemplate pid customTileUrl).length)

/-- A geographic bounding box (degrees), `bounds` in the source. -/
structure Bbox where
  south : ℚ
  west : ℚ
  north : ℚ
  east : ℚ
deriving DecidableEq

/-- Result of asking the control surface to start an export. -/
inductive StartResult
  | rejected
  | started (b : Bbox) (template : String)
deriving DecidableEq

/-- The start operation of the control plane: the export button is disabled
unless a bbox exists, a tile source is selected and no export is running
(source line 835), and `exportZip` itself returns immediately when `bounds`
is absent (line 396) — before any state is written or any request is made.
`rejected` therefore carries no session state and implies no network
activity. -/
def startExport (bounds : Option Bbox) (pid : TileProviderId) (customTileUrl : String)
    (customUrlApplied : Bool) (isExporting : Bool) : StartResult :=
  if bounds.isNone || !(isTileSourceSelected pid customTileUrl customUrlApplied) || isExporting then
    .rejected
  else
    match bounds with
    | Option.none => .rejected
    | Option.some b => .started b (tileTemplate pid customTileUrl)

/-! ### Name sanitization (source lines 162-169 and 420-421) -/

/-- Models Unicode NFKD decomposition (`name.normalize("NFKD")`) per
character: canonical decompositions of the precomposed Latin letters used by
this app, identity on characters without a decomposition.  The combining
marks are U+0300 grave, U+0301 acute, U+0302 circumflex, U+0303 tilde,
U+0308 diaeresis, U+0327 cedilla. -/
def nfkdChar (c : Char) : List Char :=
  if c = 'à' then ['a', Char.ofNat 0x300]
  else if c = 'á' then ['a', Char.ofNat 0x301]
  else if c = 'â' then ['a', Char.ofNat 0x302]
  else if c = 'ã' then ['a', Char.ofNat 0x303]
  else if c = 'ä' then ['a', Char.ofNat 0x308]
  else if c = 'é' then ['e', Char.ofNat 0x301]
  else if c = 'ê' then ['e', Char.ofNat 0x302]
  else if c = 'í' then ['i', Char.ofNat 0x301]
  else if c = 'ó' then ['o', Char.ofNat 0x301]
  else if c = 'ô' then ['o', Char.ofNat 0x302]
  else if c = 'õ' then ['o', Char.ofNat 0x303]
  else if c = 'ö' then ['o', Char.ofNat 0x308]
  else if c = 'ú' then ['u', Char.ofNat 0x301]
  else if c = 'ü' then ['u', Char.ofNat 0x308]
  else if c = 'ç' then ['c', Char.ofNat 0x327]
  else if c = 'Ã' then ['A', Char.ofNat 0x303]
  else if c = 'É' then ['E', Char.ofNat 0x301]
  else if c = 'Ç' then ['C', Char.ofNat 0x327]
  else [c]

/-- NFKD normalization of a string (models `String.prototype.normalize`). -/
def nfkd (s : List Char) : List Char := s.flatMap nfkdChar

/-- Membership in the combining-diacritics range of the source regex
`/[̀-ͯ]/`. -/
def isCombiningMark (c : Char) : Bool :=
  decide (0x300 ≤ c.toNat) && decide (c.toNat ≤ 0x36f)

/-- `.replace(/[̀-ͯ]/g, "")`: strip diacritical marks. -/
def stripMarks (s : List Char) : List Char := s.filter (fun c => !(isCombiningMark c))

/-- The character class `[a-zA-Z0-9]` of the source regexes. -/
def isAsciiAlnum (c : Char) : Bool :=
  (decide ('a' ≤ c) && decide (c ≤ 'z')) || (decide ('A' ≤ c) && decide (c ≤ 'Z'))
    || (decide ('0' ≤ c) && decide (c ≤ '9'))

/-- `.replace(/[^a-zA-Z0-9]+/g, "_")`: each maximal run of non-alphanumeric
characters becomes a single underscore.  The flag records whether the
previous character belonged to such a run. -/
def collapseRuns : List Char → Bool → List Char
  | [], _ => []
  | c :: rest, inRun =>
    if isAsciiAlnum c then c :: collapseRuns rest false
    else if inRun then collapseRuns rest true
    else '_' :: collapseRuns rest true

/-- `.replace(/^_+|_+$/g, "")`: remove the leading and the trailing run of
underscores. -/
def trimUnderscores (s : List Char) : List Char :=
  ((s.dropWhile (fun c => c == '_')).reverse.dropWhile (fun c => c == '_')).reverse

/-- `.replace(/_+/g, "_")`: collapse each run of underscores to one. -/
def collapseUnderscoreRuns : List Char → Bool → List Char
  | [], _ => []
  | c :: rest, prev =>
    if c == '_' then
      if prev then collapseUnderscoreRuns rest true
      else '_' :: collapseUnderscoreRuns rest true
    else c :: collapseUnderscoreRuns rest false

/-- Source `normalizeName` (lines 162-169): NFKD-decompose, strip the
diacritical marks, replace runs of non-alphanumerics by `_`, trim leading
and trailing underscores, collapse underscore runs. -/
def normalizeName (name : String) : String :=
  String.mk (collapseUnderscoreRuns
    (trimUnderscores (collapseRuns (stripMarks (nfkd name.toList)) false)) false)

/-! ### The fetch executor (source lines 360-364, 372-393, 395-519)

The loop is embedded as explicit state passing.  The outside world is an
environment `Env`: `outcome i a` is what the network does on attempt `a` of
job `i` (success with a byte count, a non-ok/erroring response, or an
`AbortError` caused by `cancel`), `packNow i` is the value of
`packNowRef.current` read at the boundary of job `i`, and `ctrlPresent i`
is whether `abortRef.current` is still non-null there (it is `null` exactly
when `cancelExport` ran).  `waitWhilePaused` touches no session state in the
source (it only sleeps while `pauseRef.current` is set), so it is the
identity on the session and is modelled separately, driven by the trace of
values of the pause flag. -/

inductive FetchOutcome
  | ok (bytes : ℕ)
  | fail
  | aborted
deriving DecidableEq

inductive JobResult
  | fetched (bytes : ℕ)
  | failedJob
  | abortedErr
deriving DecidableEq

def MAX_RETRIES : ℕ := 3

def RETRY_DELAY_MS : ℕ := 1000

/-- The retry loop `for (attempt = 0; attempt < MAX_RETRIES; attempt++)` of
lines 472-491, starting at `attempt` with `fuel` iterations left.  Returns
the job result together with the number of fetch attempts actually made and
the number of `RETRY_DELAY_MS` sleeps performed (a sleep happens after a
failed attempt only when `attempt < MAX_RETRIES - 1`).  An `AbortError`
propagates immediately (line 486) and is never retried. -/
def retryAux (outcome : ℕ → FetchOutcome) : ℕ → ℕ → JobResult × ℕ × ℕ
  | _, 0 => (.failedJob, 0, 0)
  | attempt, fuel+1 =>
    match outcome attempt with
    | .ok b => (.fetched b, 1, 0)
    | .aborted => (.abortedErr, 1, 0)
    | .fail =>
      if attempt < MAX_RETRIES - 1 then
        let r := retryAux outcome (attempt + 1) fuel
        (r.1, r.2.1 + 1, r.2.2 + 1)
      else (.failedJob, 1, 0)

/-- One full job fetch: the retry loop started at attempt 0. -/
def runJobFetch (outcome : ℕ → FetchOutcome) : JobResult × ℕ × ℕ :=
  retryAux outcome 0 MAX_RETRIES

/-- The mutable session state accumulated by the loop: the tile entries added
to the zip root (path and byte length), `downloadedBytes`, `failedTiles` and
the `done` counter. -/
structure Session where
  files : List (String × ℕ)
  bytes : ℕ
  failed : ℕ
  done : ℕ
deriving DecidableEq

structure Env where
  outcome : ℕ → ℕ → FetchOutcome
  packNow : ℕ → Bool
  ctrlPresent : ℕ → Bool

/-- The archive key of a tile, `` `${z}/${x}/${y}.png` `` (line 481). -/
def tilePath (j : Job) : String :=
  String.mk (natToChars j.1 ++ '/' :: intToChars j.2.1 ++ '/' :: intToChars j.2.2 ++ ".png".toList)

inductive LoopExit
  | completed
  | packed
  | cancelled
deriving DecidableEq

inductive StepResult
  | next (st : Session)
  | exit (e : LoopExit) (st : Session)
deriving DecidableEq

/-- The body of `for (const job of jobs)` (lines 457-501) for job number `i`:
after the (state-invariant) pause wait, `packNowRef` is checked (break),
then `abortRef` (throw `"Export cancelled"` when null), then the retry loop
runs; on success the tile entry and its bytes are recorded, on exhausted
retries `failedTiles` is incremented and the tile omitted, and in both cases
`done` advances and the loop continues; an `AbortError` propagates out of
the loop. -/
def processJob (env : Env) (i : ℕ) (j : Job) (st : Session) : StepResult :=
  if env.packNow i then .exit .packed st
  else if !(env.ctrlPresent i) then .exit .cancelled st
  else
    match runJobFetch (env.outcome i) with
    | (.fetched b, _, _) =>
      .next ⟨st.files ++ [(tilePath j, b)], st.bytes + b, st.failed, st.done + 1⟩
    | (.failedJob, _, _) =>
      .next ⟨st.files, st.bytes, st.failed + 1, st.done + 1⟩
    | (.abortedErr, _, _) => .exit .cancelled st

/-- The whole job loop, processing `jobs` with `i` the index of the first
one. -/
def runJobs (env : Env) : List Job → ℕ → Session → LoopExit × Session
  | [], _, st => (.completed, st)
  | j :: rest, i, st =>
    match processJob env i j st with
    | .next st' => runJobs env rest (i + 1) st'
    | .exit e st' => (e, st')

/-- Source `waitWhilePaused` (lines 360-364): `while (pauseRef.current)`
sleep 150 ms and re-check.  `trace n` is the value of the flag at the n-th
check; the result is the index of the first check that saw `false`, i.e. the
number of sleep/yield cycles performed, or `none` when the flag stayed set
for all `fuel` checks (the source loop would still be waiting). -/
def waitWhilePaused (trace : ℕ → Bool) : ℕ → ℕ → Option ℕ
  | 0, _ => Option.none
  | fuel+1, n => if trace n then waitWhilePaused trace fuel (n + 1) else Option.some n

/-- The metadata sidecar `meta` (lines 425-431), written as `export.amd`
beside the tile folders (line 505).  The wall-clock `createdAt` ISO
timestamp is not modelled. -/
structure Meta where
  region : String
  bbox : ℚ × ℚ × ℚ × ℚ
  zooms : List ℕ
  tileSource : String
deriving DecidableEq

/-- The delivered archive: `saveAs(outBlob, placeName + ".zip")` of the zip
whose root folder `AnonMapsCache` holds the tile entries and the metadata
sidecar. -/
structure Archive where
  fileName : String
  rootFolder : String
  entries : List (String × ℕ)
  sidecar : Meta
deriving DecidableEq

/-- What the caller receives: the packaged archive on normal or
stop-and-pack termination, or nothing when the run threw (cancellation):
the accumulated zip object is discarded and `saveAs` never runs. -/
inductive ExportResult
  | delivered (a : Archive)
  | cancelled
deriving DecidableEq

/-- The default region name `` `Maps z${first}–${last}` `` (line 420); an
empty zoom list renders JS `undefined`. -/
def defaultRegionName (zooms : List ℕ) : String :=
  String.mk ("Maps z".toList
    ++ ((zooms.head?.map natToChars).getD "undefined".toList)
    ++ ['–']
    ++ (((zooms.getLast?).map natToChars).getD "undefined".toList))

/-- Source `exportZip` (lines 395-519) after the `bounds` guard: compute the
region/place name and the metadata from the ORIGINAL inputs, precompute the
job list, run the loop, and — unless the loop threw — write the sidecar and
deliver the zip. -/
def exportZip (lat2y : ℕ → ℚ → ℚ) (south west north east : ℚ) (zooms : List ℕ)
    (template packName : String) (env : Env) : ExportResult :=
  let regionName := if packName.trim = "" then defaultRegionName zooms else packName.trim
  let placeName := normalizeName regionName
  let meta : Meta := ⟨regionName, (south, west, north, east), zooms, template⟩
  let jobs := planJobs lat2y south west north east zooms
  match runJobs env jobs 0 ⟨[], 0, 0, 0⟩ with
  | (.cancelled, _) => .cancelled
  | (_, st) => .delivered ⟨placeName ++ ".zip", "AnonMapsCache", st.files, meta⟩

/-- The tile entries the archive is expected to contain for a list of jobs
whose first element has index `i`: one entry per job whose fetch succeeds,
in order, failed jobs omitted. -/
def successEntriesFrom (env : Env) : ℕ → List Job → List (String × ℕ)
  | _, [] => []
  | i, j :: rest =>
    match runJobFetch (env.outcome i) with
    | (.fetched b, _, _) => (tilePath j, b) :: successEntriesFrom env (i + 1) rest
    | _ => successEntriesFrom env (i + 1) rest

/-! ### Helper lemmas about the string primitives -/

theorem isPrefixOf_append_self (p r : List Char) : p.isPrefixOf (p ++ r) = true := by
  induction p with
  | nil => simp
  | cons c t ih => simp [List.isPrefixOf, ih]

theorem replaceFirst_here (pat rep r : List Char) :
    replaceFirst pat rep (pat ++ r) = rep ++ r := by
  cases pat with
  | nil => cases r <;> simp [replaceFirst]
  | cons c cs =>
    have h1 := isPrefixOf_append_self (c :: cs) r
    have h2 : (c :: (cs ++ r)).drop (c :: cs).length = r := by
      simpa using List.drop_left (c :: cs) r
    simp only [List.cons_append] at h1 h2
    simp [replaceFirst, h1, h2]

theorem replaceFirst_cons_ne (pt rep : List Char) (c : Char) (rest : List Char)
    (hc : c ≠ lbrace) :
    replaceFirst (lbrace :: pt) rep (c :: rest) = c :: replaceFirst (lbrace :: pt) rep rest := by
  have hpref : (lbrace :: pt).isPrefixOf (c :: rest) = false := by
    simp [List.isPrefixOf]
    intro he
    exact absurd he.symm hc
  simp [replaceFirst, hpref]

theorem replaceFirst_append_left (pt rep l r : List Char) (h : lbrace ∉ l) :
    replaceFirst (lbrace :: pt) rep (l ++ r) = l ++ replaceFirst (lbrace :: pt) rep r := by
  induction l with
  | nil => rfl
  | cons c t ih =>
    have hc : c ≠ lbrace := fun he => h (he ▸ List.mem_cons_self c t)
    simp only [List.cons_append]
    rw [replaceFirst_cons_ne _ _ _ _ hc, ih (fun hm => h (List.mem_cons_of_mem c hm))]

theorem digitChar_ne_lbrace (n : ℕ) (h : n < 10) : digitChar n ≠ lbrace := by
  interval_cases n <;> decide

theorem natToCharsAux_no_lbrace (fuel : ℕ) : ∀ n, lbrace ∉ natToCharsAux fuel n := by
  induction fuel with
  | zero => intro n; simp [natToCharsAux]
  | succ f ih =>
    intro n
    by_cases h : n < 10
    · simp only [natToCharsAux, if_pos h, List.mem_singleton]
      intro he
      exact digitChar_ne_lbrace n h he.symm
    · have h10 : n % 10 < 10 := Nat.mod_lt _ (by norm_num)
      simp only [natToCharsAux, if_neg h, List.mem_append, List.mem_singleton]
      rintro (hm | he)
      · exact ih (n / 10) hm
      · exact digitChar_ne_lbrace _ h10 he.symm

theorem natToChars_no_lbrace (n : ℕ) : lbrace ∉ natToChars n :=
  natToCharsAux_no_lbrace _ _

theorem intToChars_no_lbrace (i : ℤ) : lbrace ∉ intToChars i := by
  unfold intToChars
  split
  · intro hm
    rcases List.mem_cons.mp hm with he | hm2
    · exact absurd he (by decide)
    · exact natToChars_no_lbrace _ hm2
  · exact natToChars_no_lbrace _

theorem buildTileUrlL_first (A B C D E : List Char) (z : ℕ) (x y : ℤ) (s : List Char)
    (hA : lbrace ∉ A) (hB : lbrace ∉ B) (hC : lbrace ∉ C) (hD : lbrace ∉ D)
    (hs : lbrace ∉ s) :
    buildTileUrlL (A ++ "{s}".toList ++ B ++ "{z}".toList ++ C ++ "{x}".toList
        ++ D ++ "{y}".toList ++ E) z x y s
      = A ++ s ++ B ++ natToChars z ++ C ++ intToChars x ++ D ++ intToChars y ++ E := by
  have hS : "{s}".toList = lbrace :: ('s' :: [Char.ofNat 125]) := by decide
  have hZ : "{z}".toList = lbrace :: ('z' :: [Char.ofNat 125]) := by decide
  have hX : "{x}".toList = lbrace :: ('x' :: [Char.ofNat 125]) := by decide
  have hY : "{y}".toList = lbrace :: ('y' :: [Char.ofNat 125]) := by decide
  unfold buildTileUrlL
  rw [hS, hZ, hX, hY]
  simp only [List.append_assoc]
  rw [replaceFirst_append_left _ _ _ _ hA, replaceFirst_here]
  rw [replaceFirst_append_left _ _ _ _ hA, replaceFirst_append_left _ _ _ _ hs,
    replaceFirst_append_left _ _ _ _ hB, replaceFirst_here]
  rw [replaceFirst_append_left _ _ _ _ hA, replaceFirst_append_left _ _ _ _ hs,
    replaceFirst_append_left _ _ _ _ hB,
    replaceFirst_append_left _ _ _ _ (natToChars_no_lbrace z),
    replaceFirst_append_left _ _ _ _ hC, replaceFirst_here]
  rw [replaceFirst_append_left _ _ _ _ hA, replaceFirst_append_left _ _ _ _ hs,
    replaceFirst_append_left _ _ _ _ hB,
    replaceFirst_append_left _ _ _ _ (natToChars_no_lbrace z),
    replaceFirst_append_left _ _ _ _ hC,
    replaceFirst_append_left _ _ _ _ (intToChars_no_lbrace x),
    replaceFirst_append_left _ _ _ _ hD, replaceFirst_here]

/-! ### Claim theorems -/

/-- C9: `normalizeName` normalizes its input to decomposed form and strips
diacritical marks, replaces any run of non-alphanumeric characters with a
single underscore, and trims leading and trailing underscores (the pipeline
embedded in `normalizeName`); in particular the region name
"São Paulo / Test!" sanitizes to "Sao_Paulo_Test". -/
theorem normalizeName_example : normalizeName "São Paulo / Test!" = "Sao_Paulo_Test" := by
  decide

/-- C10: `buildTileUrl` replaces only the FIRST occurrence of each of the
placeholders `{s}`, `{z}`, `{x}`, `{y}`: for every template of the shape
`A{s}B{z}C{x}D{y}E` whose segments `A`-`D` (and the subdomain) contain no
left brace and whose tail `E` is arbitrary — so `E` may contain repeated
placeholders or other placeholders such as `{r}` — the tail `E` is returned
verbatim.  Concretely, on the `carto_dark` provider template the `{r}`
placeholder survives untouched. -/
theorem buildTileUrl_first_occurrence_only :
    (∀ (A B C D E : List Char) (z : ℕ) (x y : ℤ) (s : String),
      lbrace ∉ A → lbrace ∉ B → lbrace ∉ C → lbrace ∉ D → lbrace ∉ s.toList →
      buildTileUrl (String.mk (A ++ "{s}".toList ++ B ++ "{z}".toList ++ C
          ++ "{x}".toList ++ D ++ "{y}".toList ++ E)) z x y (Option.some s)
        = String.mk (A ++ s.toList ++ B ++ natToChars z ++ C
          ++ intToChars x ++ D ++ intToChars y ++ E))
    ∧ buildTileUrl (providerUrl TileProviderId.carto_dark) 3 1 2 (Option.some "a")
        = "https://a.basemaps.cartocdn.com/dark_all/3/1/2{r}.png" := by
  constructor
  · intro A B C D E z x y s hA hB hC hD hs
    show String.mk (buildTileUrlL _ z x y s.toList) = _
    exact congrArg String.mk (buildTileUrlL_first A B C D E z x y s.toList hA hB hC hD hs)
  · decide

/-- Witness for C10 at a concrete doubled-placeholder template: the second
`{z}` and the `{r}` stay verbatim. -/
theorem buildTileUrl_first_occurrence_only_witness :
    buildTileUrl (String.mk ("u/".toList ++ "{s}".toList ++ "/".toList ++ "{z}".toList
        ++ "/".toList ++ "{x}".toList ++ "/".toList ++ "{y}".toList ++ "/{z}/{r}".toList))
        7 1 2 (Option.some "a")
      = String.mk ("u/".toList ++ "a".toList ++ "/".toList ++ natToChars 7 ++ "/".toList
        ++ intToChars 1 ++ "/".toList ++ intToChars 2 ++ "/{z}/{r}".toList) :=
  buildTileUrl_first_occurrence_only.1 "u/".toList "/".toList "/".toList "/".toList
    "/{z}/{r}".toList 7 1 2 "a" (by decide) (by decide) (by decide) (by decide) (by decide)

/-- C8: per-job URL resolution substitutes `z`, `x`, `y` into the template
(`buildTileUrl`); with a non-empty subdomain list it selects
`subs[(x+y) mod subs.length]`, and with an empty list (template without a
subdomain placeholder) it is total — the out-of-range `% 0` index yields
`undefined`, not an exception — and behaves as a single empty subdomain: the
empty string is substituted for `{s}`. -/
theorem resolveUrl_subdomain_spec :
    (∀ (template : String) (z : ℕ) (x y : ℤ) (subs : List String) (h : subs ≠ [])
      (hxy : 0 ≤ x + y),
      resolveUrl template subs z x y
        = buildTileUrl template z x y
            (Option.some (subs.get ⟨(x + y).toNat % subs.length,
              Nat.mod_lt _ (List.length_pos.mpr h)⟩)))
    ∧ (∀ (template : String) (z : ℕ) (x y : ℤ),
      resolveUrl template [] z x y = buildTileUrl template z x y (Option.some "")) := by
  constructor
  · intro template z x y subs h hxy
    have hlen : 0 < subs.length := List.length_pos.mpr h
    have ht : Int.tmod (x + y) (subs.length : ℤ)
        = (((x + y).toNat % subs.length : ℕ) : ℤ) := by
      conv_lhs => rw [← Int.toNat_of_nonneg hxy]
      rw [← Int.ofNat_tmod]
    simp only [resolveUrl, selectSub, ht]
    rw [if_neg (not_lt.mpr (Int.natCast_nonneg _))]
    rw [Int.toNat_ofNat]
    rw [List.get?_eq_get (Nat.mod_lt _ hlen)]
  · intro template z x y
    simp only [resolveUrl, selectSub, List.length_nil, Nat.cast_zero, Int.tmod_zero]
    split
    · rfl
    · rfl

/-- Witness for C8: concrete subdomain selection on a three-element list. -/
theorem resolveUrl_subdomain_spec_witness :
    resolveUrl "https://x.example/{s}/{z}/{x}/{y}.png" ["a", "b", "c"] 1 1 2
      = buildTileUrl "https://x.example/{s}/{z}/{x}/{y}.png" 1 1 2
          (Option.some (["a", "b", "c"].get ⟨((1 : ℤ) + 2).toNat % 3, by decide⟩)) :=
  resolveUrl_subdomain_spec.1 "https://x.example/{s}/{z}/{x}/{y}.png" 1 1 2
    ["a", "b", "c"] (by decide) (by decide)

/-- C4: starting an export is rejected — before any network activity and
with no session state created, `StartResult.rejected` carries nothing — when
the bbox is absent or the tile source is unresolved (`isTileSourceSelected`
false, i.e. no URL template selected). -/
theorem startExport_planning_guard (bounds : Option Bbox) (pid : TileProviderId)
    (customTileUrl : String) (customUrlApplied isExporting : Bool)
    (h : bounds = Option.none ∨ isTileSourceSelected pid customTileUrl customUrlApplied = false) :
    startExport bounds pid customTileUrl customUrlApplied isExporting = .rejected := by
  rcases h with h | h
  · subst h
    rfl
  · unfold startExport
    rw [h]
    simp

/-- Witness for C4: no bbox, and separately an unresolved source. -/
theorem startExport_planning_guard_witness :
    startExport Option.none TileProviderId.osm "" false false = StartResult.rejected
    ∧ startExport (Option.some ⟨0, 0, 0, 0⟩) TileProviderId.none "" false false
        = StartResult.rejected :=
  ⟨startExport_planning_guard _ _ _ _ _ (Or.inl rfl),
   startExport_planning_guard _ _ _ _ _ (Or.inr (by decide))⟩

theorem floor_min_comm (a b : ℚ) : ⌊min a b⌋ = min ⌊a⌋ ⌊b⌋ :=
  Int.floor_mono.map_min

theorem floor_max_comm (a b : ℚ) : ⌊max a b⌋ = max ⌊a⌋ ⌊b⌋ :=
  Int.floor_mono.map_max

theorem length_rangeInt (a b : ℤ) : (rangeInt a b).length = (b + 1 - a).toNat := by
  rw [rangeInt, List.length_map, List.length_range]

theorem length_flatMap_map_pairs (xs ys : List ℤ) :
    (xs.flatMap (fun x => ys.map (fun y => (x, y)))).length = xs.length * ys.length := by
  induction xs with
  | nil => simp
  | cons a t ih => simp [ih, Nat.succ_mul, Nat.add_comm]

/-- C5: for every valid bbox (south ≤ north) and every zoom `z`, the
estimator `tilesForBbox` — `(xMax − xMin + 1) × (yMax − yMin + 1)` — equals
the number of `(x, y)` pairs the planner's nested loops (`planPairs`,
mirroring `exportZip`'s job enumeration) actually enumerate for that zoom. -/
theorem tilesForBbox_eq_planned (lat2y : ℚ → ℚ) (south west north east : ℚ) (z : ℕ)
    (hvalid : south ≤ north) :
    ((planPairs lat2y south west north east z).length : ℤ)
      = tilesForBbox lat2y south west north east z := by
  clear hvalid
  simp only [planPairs, tilesForBbox, tileRange, lon2tileX, lat2tileY]
  rw [length_flatMap_map_pairs, length_rangeInt, length_rangeInt]
  rw [floor_min_comm, floor_max_comm, floor_min_comm, floor_max_comm]
  have hx : min ⌊lon2x z west⌋ ⌊lon2x z east⌋ ≤ max ⌊lon2x z west⌋ ⌊lon2x z east⌋ :=
    min_le_max
  have hy : min ⌊lat2y (clampLat north)⌋ ⌊lat2y (clampLat south)⌋
      ≤ max ⌊lat2y (clampLat north)⌋ ⌊lat2y (clampLat south)⌋ := min_le_max
  rw [max_eq_right (by omega : (0:ℤ) ≤ max ⌊lon2x z west⌋ ⌊lon2x z east⌋
        - min ⌊lon2x z west⌋ ⌊lon2x z east⌋ + 1),
      max_eq_right (by omega : (0:ℤ) ≤ max ⌊lat2y (clampLat north)⌋ ⌊lat2y (clampLat south)⌋
        - min ⌊lat2y (clampLat north)⌋ ⌊lat2y (clampLat south)⌋ + 1)]
  push_cast [Int.toNat_of_nonneg (by omega : (0:ℤ) ≤ max ⌊lon2x z west⌋ ⌊lon2x z east⌋ + 1
        - min ⌊lon2x z west⌋ ⌊lon2x z east⌋),
      Int.toNat_of_nonneg (by omega : (0:ℤ) ≤ max ⌊lat2y (clampLat north)⌋
        ⌊lat2y (clampLat south)⌋ + 1 - min ⌊lat2y (clampLat north)⌋ ⌊lat2y (clampLat south)⌋)]
  ring

/-- Witness for C5 at a concrete bbox and zoom. -/
theorem tilesForBbox_eq_planned_witness :
    ((planPairs (fun _ => 0) 0 0 0 0 0).length : ℤ) = tilesForBbox (fun _ => 0) 0 0 0 0 0 :=
  tilesForBbox_eq_planned (fun _ => 0) 0 0 0 0 0 le_rfl

theorem clampLat_90 : clampLat 90 = clampLat 85.05112878 := by
  unfold clampLat
  norm_num

theorem clampLat_neg90 : clampLat (-90) = clampLat (-85.05112878) := by
  unfold clampLat
  norm_num

/-- C6: latitude is clamped to ±85.05112878 before projection, for the north
and south edges independently: projecting with north = 90 produces the same
tile range — hence the same planned `(x, y)` pairs — as north = 85.05112878,
and likewise south = −90 versus south = −85.05112878, for every bbox, zoom
and Mercator projection function. -/
theorem latitude_clamp_equiv :
    (∀ (lat2y : ℚ → ℚ) (south west east : ℚ) (z : ℕ),
      tileRange lat2y south west 90 east z = tileRange lat2y south west 85.05112878 east z
      ∧ planPairs lat2y south west 90 east z = planPairs lat2y south west 85.05112878 east z)
    ∧ (∀ (lat2y : ℚ → ℚ) (west north east : ℚ) (z : ℕ),
      tileRange lat2y (-90) west north east z = tileRange lat2y (-85.05112878) west north east z
      ∧ planPairs lat2y (-90) west north east z
          = planPairs lat2y (-85.05112878) west north east z) := by
  constructor
  · intro lat2y south west east z
    constructor
    · simp only [tileRange, clampLat_90]
    · simp only [planPairs, tileRange, clampLat_90]
  · intro lat2y west north east z
    constructor
    · simp only [tileRange, clampLat_neg90]
    · simp only [planPairs, tileRange, clampLat_neg90]

theorem runJobFetch_attempts_le (o : ℕ → FetchOutcome) :
    (runJobFetch o).2.1 ≤ MAX_RETRIES := by
  cases e0 : o 0 <;> cases e1 : o 1 <;> cases e2 : o 2 <;>
    simp [runJobFetch, retryAux, MAX_RETRIES, e0, e1, e2]

theorem runJobFetch_two_fail_then_ok (o : ℕ → FetchOutcome) (b : ℕ)
    (h0 : o 0 = .fail) (h1 : o 1 = .fail) (h2 : o 2 = .ok b) :
    runJobFetch o = (.fetched b, 3, 2) := by
  simp [runJobFetch, retryAux, MAX_RETRIES, h0, h1, h2]

theorem runJobFetch_all_fail (o : ℕ → FetchOutcome)
    (h : ∀ a, a < MAX_RETRIES → o a = .fail) :
    runJobFetch o = (.failedJob, 3, 2) := by
  have h0 := h 0 (by norm_num [MAX_RETRIES])
  have h1 := h 1 (by norm_num [MAX_RETRIES])
  have h2 := h 2 (by norm_num [MAX_RETRIES])
  simp [runJobFetch, retryAux, MAX_RETRIES, h0, h1, h2]

theorem runJobFetch_not_aborted (o : ℕ → FetchOutcome)
    (h : ∀ a, a < MAX_RETRIES → o a ≠ .aborted) :
    (runJobFetch o).1 ≠ .abortedErr := by
  have h0 := h 0 (by norm_num [MAX_RETRIES])
  have h1 := h 1 (by norm_num [MAX_RETRIES])
  have h2 := h 2 (by norm_num [MAX_RETRIES])
  cases e0 : o 0 <;> cases e1 : o 1 <;> cases e2 : o 2 <;>
    simp_all [runJobFetch, retryAux, MAX_RETRIES]

theorem runJobFetch_abort_at (o : ℕ → FetchOutcome) (aC : ℕ) (hlt : aC < MAX_RETRIES)
    (hf : ∀ a, a < aC → o a = .fail) (hab : o aC = .aborted) :
    runJobFetch o = (.abortedErr, aC + 1, aC) := by
  unfold MAX_RETRIES at hlt
  interval_cases aC
  · simp [runJobFetch, retryAux, MAX_RETRIES, hab]
  · have f0 := hf 0 (by norm_num)
    simp [runJobFetch, retryAux, MAX_RETRIES, f0, hab]
  · have f0 := hf 0 (by norm_num)
    have f1 := hf 1 (by norm_num)
    simp [runJobFetch, retryAux, MAX_RETRIES, f0, f1, hab]

/-- C2: each tile fetch is attempted at most `MAX_RETRIES = 3` times with a
fixed `RETRY_DELAY_MS = 1000` sleep between attempts; failing exactly twice
then succeeding makes exactly 3 attempts (2 inter-attempt delays), the tile
is recorded and `failedTiles` is NOT incremented; failing every time makes
exactly 3 attempts, increments `failedTiles` by exactly 1, omits the tile
from the archive, and yields a `.next` step so the loop continues with the
following job instead of aborting the session. -/
theorem retry_policy_spec :
    MAX_RETRIES = 3 ∧ RETRY_DELAY_MS = 1000
    ∧ (∀ o : ℕ → FetchOutcome, (runJobFetch o).2.1 ≤ MAX_RETRIES)
    ∧ (∀ (o : ℕ → FetchOutcome) (b : ℕ), o 0 = .fail → o 1 = .fail → o 2 = .ok b →
        runJobFetch o = (.fetched b, 3, 2))
    ∧ (∀ o : ℕ → FetchOutcome, (∀ a, a < MAX_RETRIES → o a = .fail) →
        runJobFetch o = (.failedJob, 3, 2))
    ∧ (∀ (env : Env) (i : ℕ) (j : Job) (st : Session) (b : ℕ),
        env.packNow i = false → env.ctrlPresent i = true →
        env.outcome i 0 = .fail → env.outcome i 1 = .fail → env.outcome i 2 = .ok b →
        processJob env i j st
          = .next ⟨st.files ++ [(tilePath j, b)], st.bytes + b, st.failed, st.done + 1⟩)
    ∧ (∀ (env : Env) (i : ℕ) (j : Job) (st : Session),
        env.packNow i = false → env.ctrlPresent i = true →
        (∀ a, a < MAX_RETRIES → env.outcome i a = .fail) →
        processJob env i j st = .next ⟨st.files, st.bytes, st.failed + 1, st.done + 1⟩)
    ∧ (∀ (env : Env) (j : Job) (rest : List Job) (i : ℕ) (st st' : Session),
        processJob env i j st = .next st' →
        runJobs env (j :: rest) i st = runJobs env rest (i + 1) st') := by
  refine ⟨rfl, rfl, runJobFetch_attempts_le, runJobFetch_two_fail_then_ok, runJobFetch_all_fail,
    ?_, ?_, ?_⟩
  · intro env i j st b hp hc h0 h1 h2
    simp [processJob, hp, hc, runJobFetch_two_fail_then_ok _ b h0 h1 h2]
  · intro env i j st hp hc hfail
    simp [processJob, hp, hc, runJobFetch_all_fail _ hfail]
  · intro env j rest i st st' hstep
    simp [runJobs, hstep]

/-- Witness for C2: a concrete twice-failing-then-succeeding source and a
concrete always-failing source. -/
theorem retry_policy_spec_witness :
    runJobFetch (fun a => if a < 2 then .fail else .ok 7) = (.fetched 7, 3, 2)
    ∧ runJobFetch (fun _ => .fail) = (.failedJob, 3, 2) :=
  ⟨retry_policy_spec.2.2.2.1 _ 7 (by decide) (by decide) (by decide),
   retry_policy_spec.2.2.2.2.1 _ (fun a _ => rfl)⟩

theorem runJobs_stop (env : Env) :
    ∀ (k : ℕ) (jobs : List Job) (i0 : ℕ) (st : Session),
      k ≤ jobs.length →
      (∀ m, m < k → env.packNow (i0 + m) = false) →
      (k < jobs.length → env.packNow (i0 + k) = true) →
      (∀ m, m < k → env.ctrlPresent (i0 + m) = true) →
      (∀ m, m < k → (runJobFetch (env.outcome (i0 + m))).1 ≠ .abortedErr) →
      ∃ ex st', runJobs env jobs i0 st = (ex, st') ∧ ex ≠ LoopExit.cancelled
        ∧ st'.files = st.files ++ successEntriesFrom env i0 (jobs.take k) := by
  intro k
  induction k with
  | zero =>
    intro jobs i0 st _ _ hstop _ _
    cases jobs with
    | nil =>
      exact ⟨.completed, st, rfl, by simp, by simp [successEntriesFrom]⟩
    | cons j rest =>
      have hp : env.packNow i0 = true := by simpa using hstop (by simp)
      exact ⟨.packed, st, by simp [runJobs, processJob, hp], by simp,
        by simp [successEntriesFrom]⟩
  | succ k ih =>
    intro jobs i0 st hk hq hstop hctrl hab
    cases jobs with
    | nil => simp at hk
    | cons j rest =>
      have hq0 : env.packNow i0 = false := by simpa using hq 0 (Nat.succ_pos k)
      have hc0 : env.ctrlPresent i0 = true := by simpa using hctrl 0 (Nat.succ_pos k)
      have hab0 : (runJobFetch (env.outcome i0)).1 ≠ .abortedErr := by
        simpa using hab 0 (Nat.succ_pos k)
      have hk' : k ≤ rest.length := by simpa using hk
      have hq' : ∀ m, m < k → env.packNow (i0 + 1 + m) = false := by
        intro m hm
        have := hq (m + 1) (by omega)
        rwa [show i0 + (m + 1) = i0 + 1 + m by omega] at this
      have hstop' : k < rest.length → env.packNow (i0 + 1 + k) = true := by
        intro hlt
        have := hstop (by simpa using Nat.succ_lt_succ hlt)
        rwa [show i0 + (k + 1) = i0 + 1 + k by omega] at this
      have hctrl' : ∀ m, m < k → env.ctrlPresent (i0 + 1 + m) = true := by
        intro m hm
        have := hctrl (m + 1) (by omega)
        rwa [show i0 + (m + 1) = i0 + 1 + m by omega] at this
      have hab' : ∀ m, m < k → (runJobFetch (env.outcome (i0 + 1 + m))).1 ≠ .abortedErr := by
        intro m hm
        have := hab (m + 1) (by omega)
        rwa [show i0 + (m + 1) = i0 + 1 + m by omega] at this
      rcases hr : runJobFetch (env.outcome i0) with ⟨jr, na, nd⟩
      cases jr with
      | fetched b =>
        have hstep : processJob env i0 j st
            = .next ⟨st.files ++ [(tilePath j, b)], st.bytes + b, st.failed, st.done + 1⟩ := by
          simp [processJob, hq0, hc0, hr]
        obtain ⟨ex, st', he, hne, hfiles⟩ := ih rest (i0 + 1)
          ⟨st.files ++ [(tilePath j, b)], st.bytes + b, st.failed, st.done + 1⟩
          hk' hq' hstop' hctrl' hab'
        refine ⟨ex, st', ?_, hne, ?_⟩
        · rw [runJobs, hstep]
          exact he
        · rw [hfiles]
          simp [List.take_succ_cons, successEntriesFrom, hr]
      | failedJob =>
        have hstep : processJob env i0 j st
            = .next ⟨st.files, st.bytes, st.failed + 1, st.done + 1⟩ := by
          simp [processJob, hq0, hc0, hr]
        obtain ⟨ex, st', he, hne, hfiles⟩ := ih rest (i0 + 1)
          ⟨st.files, st.bytes, st.failed + 1, st.done + 1⟩ hk' hq' hstop' hctrl' hab'
        refine ⟨ex, st', ?_, hne, ?_⟩
        · rw [runJobs, hstep]
          exact he
        · rw [hfiles]
          simp [List.take_succ_cons, successEntriesFrom, hr]
      | abortedErr =>
        exact absurd (by rw [hr]) hab0

theorem runJobs_cancel (env : Env) :
    ∀ (k : ℕ) (jobs : List Job) (i0 : ℕ) (st : Session),
      k < jobs.length →
      (∀ m, m ≤ k → env.packNow (i0 + m) = false) →
      (∀ m, m ≤ k → env.ctrlPresent (i0 + m) = true) →
      (∀ m, m < k → (runJobFetch (env.outcome (i0 + m))).1 ≠ .abortedErr) →
      (runJobFetch (env.outcome (i0 + k))).1 = .abortedErr →
      ∃ st', runJobs env jobs i0 st = (LoopExit.cancelled, st') := by
  intro k
  induction k with
  | zero =>
    intro jobs i0 st hk hq hctrl _ habk
    cases jobs with
    | nil => simp at hk
    | cons j rest =>
      have hq0 : env.packNow i0 = false := by simpa using hq 0 (le_refl 0)
      have hc0 : env.ctrlPresent i0 = true := by simpa using hctrl 0 (le_refl 0)
      have habk0 : (runJobFetch (env.outcome i0)).1 = .abortedErr := by simpa using habk
      rcases hr : runJobFetch (env.outcome i0) with ⟨jr, na, nd⟩
      rw [hr] at habk0
      subst habk0
      exact ⟨st, by simp [runJobs, processJob, hq0, hc0, hr]⟩
  | succ k ih =>
    intro jobs i0 st hk hq hctrl hab habk
    cases jobs with
    | nil => simp at hk
    | cons j rest =>
      have hq0 : env.packNow i0 = false := by simpa using hq 0 (Nat.zero_le _)
      have hc0 : env.ctrlPresent i0 = true := by simpa using hctrl 0 (Nat.zero_le _)
      have hab0 : (runJobFetch (env.outcome i0)).1 ≠ .abortedErr := by
        simpa using hab 0 (Nat.succ_pos k)
      have hk' : k < rest.length := by simpa using hk
      have hq' : ∀ m, m ≤ k → env.packNow (i0 + 1 + m) = false := by
        intro m hm
        have := hq (m + 1) (by omega)
        rwa [show i0 + (m + 1) = i0 + 1 + m by omega] at this
      have hctrl' : ∀ m, m ≤ k → env.ctrlPresent (i0 + 1 + m) = true := by
        intro m hm
        have := hctrl (m + 1) (by omega)
        rwa [show i0 + (m + 1) = i0 + 1 + m by omega] at this
      have hab' : ∀ m, m < k → (runJobFetch (env.outcome (i0 + 1 + m))).1 ≠ .abortedErr := by
        intro m hm
        have := hab (m + 1) (by omega)
        rwa [show i0 + (m + 1) = i0 + 1 + m by omega] at this
      have habk' : (runJobFetch (env.outcome (i0 + 1 + k))).1 = .abortedErr := by
        rwa [show i0 + (k + 1) = i0 + 1 + k by omega] at habk
      rcases hr : runJobFetch (env.outcome i0) with ⟨jr, na, nd⟩
      cases jr with
      | fetched b =>
        obtain ⟨st', he⟩ := ih rest (i0 + 1)
          ⟨st.files ++ [(tilePath j, b)], st.bytes + b, st.failed, st.done + 1⟩
          hk' hq' hctrl' hab' habk'
        refine ⟨st', ?_⟩
        rw [runJobs, show processJob env i0 j st
          = .next ⟨st.files ++ [(tilePath j, b)], st.bytes + b, st.failed, st.done + 1⟩
          from by simp [processJob, hq0, hc0, hr]]
        exact he
      | failedJob =>
        obtain ⟨st', he⟩ := ih rest (i0 + 1)
          ⟨st.files, st.bytes, st.failed + 1, st.done + 1⟩ hk' hq' hctrl' hab' habk'
        refine ⟨st', ?_⟩
        rw [runJobs, show processJob env i0 j st
          = .next ⟨st.files, st.bytes, st.failed + 1, st.done + 1⟩
          from by simp [processJob, hq0, hc0, hr]]
        exact he
      | abortedErr =>
        exact absurd (by rw [hr]) hab0

/-- C1: a stop-and-pack session — `packNowRef` read `false` at the first `k`
job boundaries and `true` at boundary `k` (when one exists), no cancellation
meanwhile — delivers an archive whose tile entries are EXACTLY the successes
among the first `k` (attempted) jobs, in order (failed tiles omitted,
never-attempted jobs absent), and whose metadata sidecar carries the
originally requested bbox and the full zoom list, not truncated ones. -/
theorem stopAndPack_archive_spec (lat2y : ℕ → ℚ → ℚ) (south west north east : ℚ)
    (zooms : List ℕ) (template packName : String) (env : Env) (k : ℕ)
    (hk : k ≤ (planJobs lat2y south west north east zooms).length)
    (hq : ∀ m, m < k → env.packNow m = false)
    (hstop : k < (planJobs lat2y south west north east zooms).length → env.packNow k = true)
    (hctrl : ∀ m, m < k → env.ctrlPresent m = true)
    (hab : ∀ m, m < k → ∀ a, a < MAX_RETRIES → env.outcome m a ≠ .aborted) :
    exportZip lat2y south west north east zooms template packName env
      = .delivered ⟨normalizeName (if packName.trim = "" then defaultRegionName zooms
            else packName.trim) ++ ".zip",
          "AnonMapsCache",
          successEntriesFrom env 0 ((planJobs lat2y south west north east zooms).take k),
          ⟨(if packName.trim = "" then defaultRegionName zooms else packName.trim),
            (south, west, north, east), zooms, template⟩⟩ := by
  obtain ⟨ex, st', he, hne, hfiles⟩ := runJobs_stop env k
    (planJobs lat2y south west north east zooms) 0 ⟨[], 0, 0, 0⟩ hk
    (by intro m hm; simpa using hq m hm)
    (by intro hlt; simpa using hstop hlt)
    (by intro m hm; simpa using hctrl m hm)
    (by intro m hm; simpa using runJobFetch_not_aborted _ (hab m hm))
  have hfiles' : st'.files
      = successEntriesFrom env 0 ((planJobs lat2y south west north east zooms).take k) := by
    simpa using hfiles
  simp only [exportZip]
  rw [he]
  cases ex with
  | cancelled => exact absurd rfl hne
  | completed => simp [hfiles']
  | packed => simp [hfiles']

/-- Witness for C1: stop requested at the very first boundary of a planned
single-zoom session; the delivered archive keeps the original bbox and zoom
list in its sidecar. -/
theorem stopAndPack_archive_spec_witness :
    exportZip (fun _ _ => 0) 0 0 0 0 [0] "" "x"
        ⟨fun _ _ => .ok 1, fun _ => true, fun _ => true⟩
      = .delivered ⟨normalizeName (if ("x" : String).trim = "" then defaultRegionName [0]
            else ("x" : String).trim) ++ ".zip",
          "AnonMapsCache",
          successEntriesFrom ⟨fun _ _ => .ok 1, fun _ => true, fun _ => true⟩ 0
            ((planJobs (fun _ _ => 0) 0 0 0 0 [0]).take 0),
          ⟨(if ("x" : String).trim = "" then defaultRegionName [0] else ("x" : String).trim),
            (0, 0, 0, 0), [0], ""⟩⟩ :=
  stopAndPack_archive_spec (fun _ _ => 0) 0 0 0 0 [0] "" "x" _ 0
    (Nat.zero_le _) (fun m hm => absurd hm (Nat.not_lt_zero m)) (fun _ => rfl)
    (fun m hm => absurd hm (Nat.not_lt_zero m)) (fun m hm => absurd hm (Nat.not_lt_zero m))

theorem tileRange_x_le (lat2y : ℚ → ℚ) (south west north east : ℚ) (z : ℕ) :
    (tileRange lat2y south west north east z).1 ≤ (tileRange lat2y south west north east z).2.1 := by
  simp only [tileRange]
  exact min_le_max

theorem tileRange_y_le (lat2y : ℚ → ℚ) (south west north east : ℚ) (z : ℕ) :
    (tileRange lat2y south west north east z).2.2.1
      ≤ (tileRange lat2y south west north east z).2.2.2 := by
  simp only [tileRange]
  exact min_le_max

theorem planPairs_length_pos (lat2y : ℚ → ℚ) (south west north east : ℚ) (z : ℕ) :
    0 < (planPairs lat2y south west north east z).length := by
  have hx := tileRange_x_le lat2y south west north east z
  have hy := tileRange_y_le lat2y south west north east z
  simp only [planPairs]
  rw [length_flatMap_map_pairs, length_rangeInt, length_rangeInt]
  exact Nat.mul_pos (by omega) (by omega)

/-- C3: when `cancel()` fires during a fetch — the pending attempt rejects
with an `AbortError` (`FetchOutcome.aborted`) at some attempt `aC` of job
`iC` — the in-flight attempt is the LAST one made (`aC + 1` attempts, no
retry after the abort), the run ends as `.cancelled`, and no archive is
produced or delivered: the accumulated tile bytes are discarded with the
thrown-away zip object. -/
theorem cancel_spec (lat2y : ℕ → ℚ → ℚ) (south west north east : ℚ)
    (zooms : List ℕ) (template packName : String) (env : Env) (iC aC : ℕ)
    (hi : iC < (planJobs lat2y south west north east zooms).length)
    (hq : ∀ m, m ≤ iC → env.packNow m = false)
    (hctrl : ∀ m, m ≤ iC → env.ctrlPresent m = true)
    (hab : ∀ m, m < iC → ∀ a, a < MAX_RETRIES → env.outcome m a ≠ .aborted)
    (haC : aC < MAX_RETRIES)
    (hfail : ∀ a, a < aC → env.outcome iC a = .fail)
    (habort : env.outcome iC aC = .aborted) :
    exportZip lat2y south west north east zooms template packName env = .cancelled
    ∧ runJobFetch (env.outcome iC) = (.abortedErr, aC + 1, aC) := by
  have hrf : runJobFetch (env.outcome iC) = (.abortedErr, aC + 1, aC) :=
    runJobFetch_abort_at _ aC haC hfail habort
  refine ⟨?_, hrf⟩
  obtain ⟨st', he⟩ := runJobs_cancel env iC
    (planJobs lat2y south west north east zooms) 0 ⟨[], 0, 0, 0⟩ hi
    (by intro m hm; simpa using hq m hm)
    (by intro m hm; simpa using hctrl m hm)
    (by intro m hm; simpa using runJobFetch_not_aborted _ (hab m hm))
    (by simp [hrf])
  simp only [exportZip]
  rw [he]

/-- Witness for C3: the very first attempt of the first job aborts; one
attempt total, no archive. -/
theorem cancel_spec_witness :
    exportZip (fun _ _ => 0) 0 0 0 0 [0] "" ""
        ⟨fun _ _ => .aborted, fun _ => false, fun _ => true⟩ = .cancelled
    ∧ runJobFetch ((fun _ _ => FetchOutcome.aborted) 0) = (.abortedErr, 0 + 1, 0) :=
  cancel_spec (fun _ _ => 0) 0 0 0 0 [0] "" ""
    ⟨fun _ _ => .aborted, fun _ => false, fun _ => true⟩ 0 0
    (by simp [planJobs]
        exact planPairs_length_pos _ _ _ _ _ _)
    (fun m _ => rfl) (fun m _ => rfl)
    (fun m hm => absurd hm (Nat.not_lt_zero m))
    (by decide)
    (fun a ha => absurd ha (Nat.not_lt_zero a))
    rfl

theorem waitWhilePaused_some (trace : ℕ → Bool) :
    ∀ (fuel n m : ℕ), waitWhilePaused trace fuel n = Option.some m →
      n ≤ m ∧ (∀ p, n ≤ p → p < m → trace p = true) ∧ trace m = false := by
  intro fuel
  induction fuel with
  | zero =>
    intro n m h
    simp [waitWhilePaused] at h
  | succ f ih =>
    intro n m h
    by_cases ht : trace n
    · rw [waitWhilePaused, if_pos ht] at h
      obtain ⟨hle, hall, hfalse⟩ := ih (n + 1) m h
      refine ⟨by omega, ?_, hfalse⟩
      intro p hp1 hp2
      rcases Nat.lt_or_ge p (n + 1) with hlt | hge
      · have hp : p = n := by omega
        rwa [hp]
      · exact hall p hge hp2
    · rw [waitWhilePaused, if_neg ht] at h
      have hm : n = m := by simpa using h
      subst hm
      exact ⟨le_refl n, fun p hp1 hp2 => absurd (Nat.lt_of_le_of_lt hp1 hp2) (lt_irrefl n),
        by simpa using ht⟩

theorem waitWhilePaused_forever (trace : ℕ → Bool) (hall : ∀ p, trace p = true) :
    ∀ fuel n, waitWhilePaused trace fuel n = Option.none := by
  intro fuel
  induction fuel with
  | zero => intro n; rfl
  | succ f ih =>
    intro n
    rw [waitWhilePaused, if_pos (hall n)]
    exact ih (n + 1)

/-- C7: at each job boundary the executor consults the control flags before
starting work — with `packNow` set the step exits `.packed` with the session
untouched and no fetch attempted, and with the controller gone (cancel) it
exits `.cancelled` likewise; while the pause flag is set the wait loop
performs only sleep/yield cycles (cooperative suspensions, not busy
spinning), starting no job, and returns exactly at the first check that sees
the flag cleared (resume or cancel clears it); if the flag is never cleared
it never proceeds. -/
theorem pause_control_spec :
    (∀ (env : Env) (i : ℕ) (j : Job) (st : Session),
      env.packNow i = true → processJob env i j st = .exit .packed st)
    ∧ (∀ (env : Env) (i : ℕ) (j : Job) (st : Session),
      env.packNow i = false → env.ctrlPresent i = false →
      processJob env i j st = .exit .cancelled st)
    ∧ (∀ (trace : ℕ → Bool) (fuel m : ℕ),
      waitWhilePaused trace fuel 0 = Option.some m →
      (∀ p, p < m → trace p = true) ∧ trace m = false)
    ∧ (∀ (trace : ℕ → Bool) (fuel n : ℕ),
      (∀ p, trace p = true) → waitWhilePaused trace fuel n = Option.none) := by
  refine ⟨?_, ?_, ?_, ?_⟩
  · intro env i j st hp
    simp [processJob, hp]
  · intro env i j st hp hc
    simp [processJob, hp, hc]
  · intro trace fuel m h
    obtain ⟨_, hall, hfalse⟩ := waitWhilePaused_some trace fuel 0 m h
    exact ⟨fun p hp => hall p (Nat.zero_le p) hp, hfalse⟩
  · intro trace fuel n hall
    exact waitWhilePaused_forever trace hall fuel n

/-- Witness for C7: a set `packNow` flag makes the boundary check exit
before any fetch work on a concrete session. -/
theorem pause_control_spec_witness :
    processJob ⟨fun _ _ => .ok 1, fun _ => true, fun _ => true⟩ 0 (0, 0, 0) ⟨[], 0, 0, 0⟩
      = .exit .packed ⟨[], 0, 0, 0⟩ :=
  pause_control_spec.1 ⟨fun _ _ => .ok 1, fun _ => true, fun _ => true⟩ 0 (0, 0, 0)
    ⟨[], 0, 0, 0⟩ rfl

end AnonMaps
